import Mathlib

/-!
# Verification of the nist-stack render-and-hydrate pipeline

Shallow embedding of the server-side page interceptor
(`src/common/page.interceptor.ts`), the redirect exception and filter
(`src/common/redirect.exception.ts`, `src/common/redirect.filter.ts`) and the
client router (`src/client/router.tsx`), together with proofs about the
embedded definitions.

JavaScript values that can appear in a hydration payload are modelled by
`JsVal`; numbers are modelled as integers (the payloads the pipeline builds —
props, route fields, page name, timestamp — carry integral numbers).  JS
strings are modelled as Lean `String`s (sequences of Unicode scalar values).
-/

namespace NistStack

/-- A JSON-representable JavaScript value: `null`, booleans, (integral)
numbers, strings, arrays and plain objects.  Objects are association lists in
property order. -/
inductive JsVal where
  | jnull
  | jbool (b : Bool)
  | jint (n : Int)
  | jstr (s : String)
  | jarr (items : List JsVal)
  | jobj (fields : List (String × JsVal))

/-! ## Page-name validation (`NistInterceptor.validatePageName`) -/

/-- One character of the compiled safety pattern
`SAFE_PAGE_NAME_PATTERN = /^[a-zA-Z0-9_-]+$/`. -/
def isSafeNameChar (c : Char) : Bool :=
  ('a' ≤ c && c ≤ 'z') || ('A' ≤ c && c ≤ 'Z') || ('0' ≤ c && c ≤ '9')
    || c = '_' || c = '-'

/-- `SAFE_PAGE_NAME_PATTERN.test s`: the pattern `^[a-zA-Z0-9_-]+$` accepts
exactly the nonempty strings all of whose characters lie in the class. -/
def safeNameTest (s : String) : Bool :=
  !s.toList.isEmpty && s.toList.all isSafeNameChar

/-- `haystack.includes(needle)` on character lists: some suffix of the
haystack starts with the needle. -/
def containsSeq (needle : List Char) : List Char → Bool
  | [] => needle.isEmpty
  | c :: rest => needle.isPrefixOf (c :: rest) || containsSeq needle rest

/-- Shallow embedding of `NistInterceptor.validatePageName`: the fast path
rejects names containing `".."`, `"/"` or `"\"`, then the safety pattern is
tested. -/
def validatePageName (pageName : String) : Bool :=
  if containsSeq ['.', '.'] pageName.toList
      || containsSeq ['/'] pageName.toList
      || containsSeq ['\\'] pageName.toList then
    false
  else
    safeNameTest pageName

/-! ## Prop sanitization (`NistInterceptor.sanitizeInitialProps`)

The source returns `data` unchanged when `depth > 10` or when `data` is not a
(non-null) object; otherwise it clones the object or array and walks the own
keys, deleting keys named `"password"` or `"passwordHash"` and recursing (at
`depth + 1`) into values that are themselves objects.  Recursing into every
child is extensionally the same, because the entry test makes the function the
identity on primitives, which is how the embedding below is phrased. -/

mutual

/-- Shallow embedding of `NistInterceptor.sanitizeInitialProps`. -/
def sanitizeInitialProps (data : JsVal) (depth : Nat) : JsVal :=
  if 10 < depth then data
  else
    match data with
    | .jobj fields => .jobj (sanitizeFields fields depth)
    | .jarr items => .jarr (sanitizeItems items depth)
    | prim => prim

/-- The key loop of `sanitizeInitialProps` over an object clone: secret keys
are deleted, other values are sanitized one level deeper. -/
def sanitizeFields (fields : List (String × JsVal)) (depth : Nat) :
    List (String × JsVal) :=
  match fields with
  | [] => []
  | (key, value) :: rest =>
    if key = "password" || key = "passwordHash" then sanitizeFields rest depth
    else (key, sanitizeInitialProps value (depth + 1)) :: sanitizeFields rest depth

/-- The key loop of `sanitizeInitialProps` over an array clone: indices are
never named `"password"`, so every element is just sanitized one level
deeper. -/
def sanitizeItems (items : List JsVal) (depth : Nat) : List JsVal :=
  match items with
  | [] => []
  | value :: rest =>
    sanitizeInitialProps value (depth + 1) :: sanitizeItems rest depth

end

mutual

/-- No object reachable within `k` levels below this value (the value itself
being level `0`) owns a field named `"password"` or `"passwordHash"`. -/
def secretFreeTo (k : Nat) : JsVal → Bool
  | .jobj fields => fieldsSecretFreeTo k fields
  | .jarr items => itemsSecretFreeTo k items
  | _ => true

/-- Field-list form of `secretFreeTo`. -/
def fieldsSecretFreeTo (k : Nat) : List (String × JsVal) → Bool
  | [] => true
  | (key, value) :: rest =>
    !(key = "password" || key = "passwordHash")
      && (match k with
          | 0 => true
          | k + 1 => secretFreeTo k value)
      && fieldsSecretFreeTo k rest

/-- Element-list form of `secretFreeTo`. -/
def itemsSecretFreeTo (k : Nat) : List JsVal → Bool
  | [] => true
  | value :: rest =>
    (match k with
     | 0 => true
     | k + 1 => secretFreeTo k value)
      && itemsSecretFreeTo k rest

end

/-- First-match association lookup over an object's fields. -/
def lookupField (fields : List (String × JsVal)) (key : String) : Option JsVal :=
  match fields with
  | [] => none
  | (k, v) :: rest => if k = key then some v else lookupField rest key

/-! ## Metadata merge (`intercept`, step 6)

A metadata layer is a JS object; a field may be explicitly defined as
`undefined`, modelled by a `none` value.  `{...a, ...b}` keeps every binding
of `b` and every binding of `a` whose key `b` does not define. -/

/-- A metadata record: bindings from keys to values, where a `none` value is a
key explicitly defined as `undefined`. -/
abbrev MetaRecord := List (String × Option JsVal)

/-- Does the record define the key (even as `undefined`)? -/
def hasKey (r : MetaRecord) (key : String) : Bool :=
  r.any (fun kv => kv.1 = key)

/-- The value a record defines for a key: `none` when the key is absent,
`some none` when explicitly `undefined`. -/
def getKey (r : MetaRecord) (key : String) : Option (Option JsVal) :=
  match r with
  | [] => none
  | (k, v) :: rest => if k = key then some v else getKey rest key

/-- JS object spread `{...a, ...b}` on records: all of `b`, plus the bindings
of `a` whose keys `b` does not define. -/
def spreadRecord (a b : MetaRecord) : MetaRecord :=
  a.filter (fun kv => !hasKey b kv.1) ++ b

/-- Shallow embedding of the metadata merge
`{...(rootLayout?.metadata || {}), ...layoutMetadata, ...pageModule.metadata,
...controllerMetadata}`. -/
def mergeMetadata (root nested page override : MetaRecord) : MetaRecord :=
  spreadRecord (spreadRecord (spreadRecord root nested) page) override

/-! ## Module cache (`MODULE_CACHE`, `CACHE_TTL`, `loadPageModule`) -/

/-- What the external loader (`vite.ssrLoadModule` plus companion-metadata
resolution) produces for one invocation. -/
structure LoadResult where
  component : Nat
  metadata : MetaRecord
  config : MetaRecord

/-- The source's `CachedModule`: loader output stamped with the load time. -/
structure CachedModule where
  component : Nat
  metadata : MetaRecord
  config : MetaRecord
  timestamp : Nat

/-- `CACHE_TTL = process.env.NODE_ENV === "production" ? Infinity : 10000`;
`none` models `Infinity`. -/
def CACHE_TTL (isProduction : Bool) : Option Nat :=
  if isProduction then none else some 10000

/-- The freshness test `Date.now() - cached.timestamp < CACHE_TTL`
(`now - ts` is JS subtraction on timestamps with `now ≥ ts`; any finite
difference is below `Infinity`). -/
def ttlFresh (isProduction : Bool) (now ts : Nat) : Bool :=
  match CACHE_TTL isProduction with
  | none => true
  | some ttl => now - ts < ttl

/-- `MODULE_CACHE` together with a count of loader invocations; the loader is
an oracle indexed by invocation count, so distinct invocations are
observable. -/
structure CacheState where
  entries : List (String × CachedModule)
  loadCount : Nat

/-- `MODULE_CACHE.get`. -/
def cacheGet (entries : List (String × CachedModule)) (key : String) :
    Option CachedModule :=
  match entries with
  | [] => none
  | (k, m) :: rest => if k = key then some m else cacheGet rest key

/-- `MODULE_CACHE.set`: bind the key to a new entry (the old entry is
replaced, not mutated). -/
def cacheSet (entries : List (String × CachedModule)) (key : String)
    (m : CachedModule) : List (String × CachedModule) :=
  (key, m) :: entries.filter (fun kv => !(kv.1 = key))

/-- Shallow embedding of `NistInterceptor.loadPageModule`: return the cached
entry while fresh, otherwise invoke the external loader once and replace the
entry with a newly stamped one. -/
def loadPageModule (isProduction : Bool) (loader : Nat → LoadResult)
    (pagePath : String) (now : Nat) (st : CacheState) :
    CachedModule × CacheState :=
  match cacheGet st.entries pagePath with
  | some cached =>
    if ttlFresh isProduction now cached.timestamp then (cached, st)
    else
      let r := loader st.loadCount
      let m : CachedModule := ⟨r.component, r.metadata, r.config, now⟩
      (m, ⟨cacheSet st.entries pagePath m, st.loadCount + 1⟩)
  | none =>
    let r := loader st.loadCount
    let m : CachedModule := ⟨r.component, r.metadata, r.config, now⟩
    (m, ⟨cacheSet st.entries pagePath m, st.loadCount + 1⟩)

/-! ## Client hydration globals (bootstrap script and `fetchAndRenderPage`) -/

/-- The `route` sub-record of the hydration payload, as the bootstrap script
reads it (`_.route.params`, `_.route.query`, `_.route.pathname`). -/
structure HydrationRoute where
  params : JsVal
  query : JsVal
  pathname : String

/-- The hydration payload built per request (step 7 of `intercept`). -/
structure HydrationPayload where
  props : JsVal
  route : HydrationRoute
  page : String
  timestamp : Nat

/-- The frozen `window.__NIST__` object published by the bootstrap script. -/
structure NistGlobal where
  props : JsVal
  route : HydrationRoute
  page : String
  hydrated : Bool

/-- The client global namespace: the canonical frozen object plus the legacy
flattened aliases. -/
structure ClientGlobals where
  nist : Option NistGlobal
  initialProps : Option JsVal
  pageName : Option String
  routeParams : Option JsVal
  queryParams : Option JsVal
  pathname : Option String

/-- Shallow embedding of the inline bootstrap script emitted by
`createHydrationScripts`: it publishes `window.__NIST__` and all five legacy
aliases from the same parsed payload. -/
def bootstrapPublish (payload : HydrationPayload) (_g : ClientGlobals) :
    ClientGlobals :=
  { nist := some ⟨payload.props, payload.route, payload.page, false⟩,
    initialProps := some payload.props,
    pageName := some payload.page,
    routeParams := some payload.route.params,
    queryParams := some payload.route.query,
    pathname := some payload.route.pathname }

/-- Shallow embedding of the global-state update in
`fetchAndRenderPage` (`src/client/router.tsx`): when both regex markers match
the fetched document, only `window.__INITIAL_PROPS__` and
`window.__PAGE_NAME__` are overwritten; `window.__NIST__` and the route
aliases are left as they were.  When the markers do not match, nothing is
updated. -/
def fetchAndRenderPage (extracted : Option (JsVal × String))
    (g : ClientGlobals) : ClientGlobals :=
  match extracted with
  | none => g
  | some (props, page) =>
    { g with initialProps := some props, pageName := some page }

/-- The published globals are aligned: every legacy alias reflects the same
payload as the canonical frozen object. -/
def globalsAligned (g : ClientGlobals) : Prop :=
  match g.nist with
  | none =>
    g.initialProps = none ∧ g.pageName = none ∧ g.routeParams = none
      ∧ g.queryParams = none ∧ g.pathname = none
  | some n =>
    g.initialProps = some n.props ∧ g.pageName = some n.page
      ∧ g.routeParams = some n.route.params
      ∧ g.queryParams = some n.route.query
      ∧ g.pathname = some n.route.pathname

/-! ## The interceptor pipeline (`NistInterceptor.intercept`)

The pipeline is embedded as a function from the request environment (the
reflected metadata, the loadability of the artifacts, the handler result and
the outcome of markup construction) to an outcome, a final transport response
state, and a trace of artifact-load events.  The trace records the order in
which loads are issued and settle: `await e` issues `e` and settles it before
anything later runs; `await Promise.all([a, b])` issues both and then settles
both at the single join. -/

/-- The artifacts the pipeline loads. -/
inductive ArtifactKind where
  | page
  | notFound
  | nestedLayout
  | rootLayout
deriving DecidableEq

/-- One load event: a load being issued, or settling. -/
inductive LoadEvent where
  | issue (k : ArtifactKind)
  | settle (k : ArtifactKind)
deriving DecidableEq

/-- Trace of `await load(k)`: issued, then settled, before anything later. -/
def awaitLoad (k : ArtifactKind) : List LoadEvent :=
  [.issue k, .settle k]

/-- Trace of `await Promise.all([loadA, loadB])`: both loads are issued
(in array order) before either is awaited; the single join then settles
both. -/
def promiseAllPair (a b : ArtifactKind) : List LoadEvent :=
  [.issue a, .issue b, .settle a, .settle b]

/-- Exceptions of the embedded pipeline.  `NistError extends Error`;
`RedirectException` is a plain class (not an `Error` subclass); `jsError`
stands for any other `Error` instance (e.g. a render failure). -/
inductive JsException where
  | nistError (message : String)
  | redirectException (url : String) (statusCode : Nat)
  | jsError (message : String)
deriving DecidableEq

/-- The `err instanceof Error` test of the interceptor's catch-all. -/
def instanceOfError : JsException → Bool
  | .nistError _ => true
  | .jsError _ => true
  | .redirectException _ _ => false

/-- The `message` property of an exception (`RedirectException` sets
`this.message = "Redirecting to " ++ url`). -/
def exceptionMessage : JsException → String
  | .nistError m => m
  | .jsError m => m
  | .redirectException url _ => "Redirecting to " ++ url

/-- The mutable Express response state the pipeline writes to. -/
structure ResState where
  status : Nat
  headers : List (String × String)
  ended : Bool
deriving DecidableEq

/-- `res.status(code)`: overwrite the status register. -/
def resStatus (r : ResState) (code : Nat) : ResState :=
  { r with status := code }

/-- `res.setHeader(name, value)`. -/
def resSetHeader (r : ResState) (name value : String) : ResState :=
  { r with headers := r.headers ++ [(name, value)] }

/-- `res.end(body)`: the response is sent with the current status. -/
def resEnd (r : ResState) : ResState :=
  { r with ended := true }

/-- A fresh Express response: status defaults to 200, nothing sent. -/
def initialRes : ResState := ⟨200, [], false⟩

/-- The pre-built `SECURITY_HEADERS` set (values elided; the names are the
fixed header set of the source). -/
def SECURITY_HEADERS : List (String × String) :=
  [("Content-Security-Policy", "csp"),
   ("X-Frame-Options", "DENY"),
   ("X-Content-Type-Options", "nosniff"),
   ("X-XSS-Protection", "1; mode=block"),
   ("Referrer-Policy", "strict-origin-when-cross-origin"),
   ("Permissions-Policy", "geolocation=(), microphone=(), camera=()")]

/-- `setSecurityHeaders(res)`. -/
def setSecurityHeaders (r : ResState) : ResState :=
  SECURITY_HEADERS.foldl (fun acc kv => resSetHeader acc kv.1 kv.2) r

/-- The default metadata of `loadNotFoundPage`. -/
def notFoundDefaultMetadata : MetaRecord :=
  [("title", some (.jstr "404 - Page Not Found")),
   ("description", some (.jstr "The page you are looking for does not exist.")),
   ("robots", some (.jstr "noindex, nofollow"))]

/-- The request environment of one `intercept` call: the reflected route
metadata, which artifacts the loaders can produce, their metadata, the
per-request override, and the outcome of markup construction. -/
structure InterceptEnv where
  pageRoot : Option String
  pageName : Option String
  hasPagesDir : Bool
  pageLoadable : Bool
  customNotFound : Bool
  customNotFoundMeta : MetaRecord
  pageMeta : MetaRecord
  nestedLayoutMeta : Option MetaRecord
  rootLayoutMeta : Option MetaRecord
  controllerMeta : MetaRecord
  renderOutcome : Option JsException

/-- What one `intercept` call produces. -/
inductive InterceptOutcome where
  | passThrough
  | handlerError (e : JsException)
  | sent (mergedMetadata : MetaRecord) (notFoundFallback : Bool)
  | threw (e : JsException)

/-- One full run: outcome, final response state, artifact-load trace. -/
structure InterceptRun where
  outcome : InterceptOutcome
  res : ResState
  trace : List LoadEvent

/-- The body of the `switchMap` projection: the numbered steps 1–10 of
`intercept`, wrapped in the catch-all that re-throws every exception as
`new NistError(err instanceof Error ? err.message : "SSR rendering failed")`.
The load phase awaits the page load first (falling back to the not-found
artifact on failure, setting a 404 status), then issues the two layout loads
together and joins them.  After markup construction the response is sent with
`res.status(200).end(...)`, overwriting the status register. -/
def switchMapBody (env : InterceptEnv) (res : ResState) : InterceptRun :=
  let pageTrace := awaitLoad .page
    ++ (if env.pageLoadable then [] else awaitLoad .notFound)
  let res404 := if env.pageLoadable then res else resStatus res 404
  let layoutTrace :=
    if env.hasPagesDir then promiseAllPair .nestedLayout .rootLayout
    else awaitLoad .rootLayout
  let trace := pageTrace ++ layoutTrace
  let pageMeta :=
    if env.pageLoadable then env.pageMeta
    else if env.customNotFound then
      spreadRecord notFoundDefaultMetadata env.customNotFoundMeta
    else notFoundDefaultMetadata
  let layoutMeta :=
    if env.hasPagesDir then (env.nestedLayoutMeta.getD []) else []
  let merged := mergeMetadata (env.rootLayoutMeta.getD []) layoutMeta
    pageMeta env.controllerMeta
  match env.renderOutcome with
  | some e =>
    ⟨.threw (.nistError
        (if instanceOfError e then exceptionMessage e
         else "SSR rendering failed")),
      res404, trace⟩
  | none =>
    let resOut :=
      resEnd (resStatus
        (resSetHeader (setSecurityHeaders res404) "Content-Type" "text/html")
        200)
    ⟨.sent merged (!env.pageLoadable && !env.customNotFound), resOut, trace⟩

/-- Shallow embedding of `NistInterceptor.intercept`: pass the handler's
observable through untouched when the class has no page-root metadata or the
handler has no page-name metadata; throw `NistError` on an invalid page name
before any load; pass an error of the source observable (a guard or the
handler throwing, e.g. a `RedirectException`) through the `switchMap`
unchanged; otherwise run the projection body on the handler's value. -/
def intercept (env : InterceptEnv) (res : ResState)
    (handler : Option JsException) : InterceptRun :=
  match env.pageRoot, env.pageName with
  | none, _ => ⟨.passThrough, res, []⟩
  | some _, none => ⟨.passThrough, res, []⟩
  | some _, some pageName =>
    if !validatePageName pageName then
      ⟨.threw (.nistError ("Invalid page name: " ++ pageName
          ++ ". Only alphanumeric characters, hyphens, and underscores are allowed.")),
        res, []⟩
    else
      match handler with
      | some e => ⟨.handlerError e, res, []⟩
      | none => switchMapBody env res

/-- Shallow embedding of `RedirectExceptionFilter.catch`: the transport's
exception filter responds with the signaled status code and a `Location`
header naming the signaled target. -/
def redirectFilterCatch (url : String) (statusCode : Nat) (res : ResState) :
    ResState :=
  resEnd (resSetHeader (resStatus res statusCode) "Location" url)

/-- The claimed three-way fan-out shape for a load trace: all three artifact
loads are issued before any of them settles (no load is awaited before
another is started). -/
def threeWayFanOut (tr : List LoadEvent) : Bool :=
  tr.contains (.issue .page) && tr.contains (.issue .nestedLayout)
    && tr.contains (.issue .rootLayout) && issuesBeforeSettles tr
where
  /-- Every issue event in the trace precedes every settle event. -/
  issuesBeforeSettles : List LoadEvent → Bool
    | [] => true
    | .issue _ :: rest => issuesBeforeSettles rest
    | .settle _ :: rest =>
      rest.all (fun e => match e with | .issue _ => false | .settle _ => true)

/-! ## Hydration codec (`NistInterceptor.serializeJavaScript`)

`serializeJavaScript` is `JSON.stringify(data)` followed by a single-pass
replacement of `<`, `>`, `/`, U+2028 and U+2029 by `<`, `>`,
`/`, `U+2028` and `U+2029`.  `JSON.stringify` is the platform builtin;
it is modelled on `JsVal` below: it emits no insignificant whitespace, escapes
`"` and `\` and the C0 control characters inside strings (short escapes for
backspace, form feed, newline, carriage return, tab; `\u00XX` otherwise), and
leaves every other character — including `<`, `>`, `/`, U+2028, U+2029 — raw.
Numbers are integral, rendered as an optional minus sign and decimal digits.

`JSON.parse` is modelled as a total fueled parser over characters.  It skips
insignificant whitespace, resolves the string escapes `\" \\ \/ \b \f \n \r
\t \uXXXX` (BMP escapes as scalar values), and reads integral numbers; this
covers every document the modelled serializer can emit. -/

/-- Lower-case hexadecimal digit of `n < 16`. -/
def hexDigit (n : Nat) : Char :=
  if n < 10 then Char.ofNat (48 + n) else Char.ofNat (87 + n)

/-- One string character as `JSON.stringify` emits it. -/
def jsonEscapeChar (c : Char) : List Char :=
  if c = '"' then ['\\', '"']
  else if c = '\\' then ['\\', '\\']
  else if c = '\x08' then ['\\', 'b']
  else if c = '\x0c' then ['\\', 'f']
  else if c = '\n' then ['\\', 'n']
  else if c = '\r' then ['\\', 'r']
  else if c = '\t' then ['\\', 't']
  else if c.toNat < 32 then
    ['\\', 'u', '0', '0', hexDigit (c.toNat / 16), hexDigit (c.toNat % 16)]
  else [c]

/-- Decimal digit characters of `n`, most significant first, onto `acc`. -/
def natToChars (n : Nat) (acc : List Char) : List Char :=
  if n < 10 then Char.ofNat (48 + n) :: acc
  else natToChars (n / 10) (Char.ofNat (48 + n % 10) :: acc)
termination_by n
decreasing_by omega

/-- The characters of an integer: optional minus sign, then decimal digits. -/
def intToChars (i : Int) : List Char :=
  (if i < 0 then ['-'] else []) ++ natToChars i.natAbs []

/-- A JSON string literal as `JSON.stringify` emits it. -/
def stringifyString (s : String) : List Char :=
  '"' :: (s.toList.flatMap jsonEscapeChar ++ ['"'])

mutual

/-- The characters `JSON.stringify` emits for a value. -/
def jsonStringify : JsVal → List Char
  | .jnull => ['n', 'u', 'l', 'l']
  | .jbool true => ['t', 'r', 'u', 'e']
  | .jbool false => ['f', 'a', 'l', 's', 'e']
  | .jint i => intToChars i
  | .jstr s => stringifyString s
  | .jarr items => '[' :: (stringifyItems items ++ [']'])
  | .jobj fields => '{' :: (stringifyFields fields ++ ['}'])

/-- Comma-separated array elements. -/
def stringifyItems : List JsVal → List Char
  | [] => []
  | [v] => jsonStringify v
  | v :: rest => jsonStringify v ++ ',' :: stringifyItems rest

/-- Comma-separated `"key":value` members. -/
def stringifyFields : List (String × JsVal) → List Char
  | [] => []
  | [(k, v)] => stringifyString k ++ ':' :: jsonStringify v
  | (k, v) :: rest =>
    stringifyString k ++ ':' :: (jsonStringify v ++ ',' :: stringifyFields rest)

end

/-- Is the character one of the five the script-escape pass rewrites? -/
def isScriptSpecial (c : Char) : Bool :=
  c = '<' || c = '>' || c = '/' || c = '\u2028' || c = '\u2029'

/-- The replacement callback of `serializeJavaScript`
(`jsonString.replace(/[<>\/U+2028U+2029]/g, ...)`), applied per character. -/
def scriptEscapeChar (c : Char) : List Char :=
  if c = '<' then ['\\', 'u', '0', '0', '3', 'c']
  else if c = '>' then ['\\', 'u', '0', '0', '3', 'e']
  else if c = '/' then ['\\', 'u', '0', '0', '2', 'f']
  else if c = '\u2028' then ['\\', 'u', '2', '0', '2', '8']
  else if c = '\u2029' then ['\\', 'u', '2', '0', '2', '9']
  else [c]

/-- The whole-text script-escape pass. -/
def escapeScriptChars (cs : List Char) : List Char :=
  cs.flatMap scriptEscapeChar

/-- Shallow embedding of `NistInterceptor.serializeJavaScript`:
`JSON.stringify`, then the global replacement of `<`, `>`, `/`, U+2028 and
U+2029. -/
def serializeJavaScript (data : JsVal) : String :=
  ⟨escapeScriptChars (jsonStringify data)⟩

/-- Insignificant JSON whitespace. -/
def isJsonWs (c : Char) : Bool :=
  c = ' ' || c = '\t' || c = '\n' || c = '\r'

/-- Skip insignificant whitespace. -/
def skipSpaces : List Char → List Char
  | [] => []
  | c :: rest => if isJsonWs c then skipSpaces rest else c :: rest

/-- A decimal digit character. -/
def isDigitChar (c : Char) : Bool :=
  '0' ≤ c && c ≤ '9'

/-- Does the input not start with a decimal digit?  (A run of digits followed
by such a remainder is a maximal number token.) -/
def notDigitStart : List Char → Bool
  | [] => true
  | c :: _ => !isDigitChar c

/-- The value of a hexadecimal digit character. -/
def hexVal (c : Char) : Option Nat :=
  if '0' ≤ c && c ≤ '9' then some (c.toNat - 48)
  else if 'a' ≤ c && c ≤ 'f' then some (c.toNat - 87)
  else if 'A' ≤ c && c ≤ 'F' then some (c.toNat - 55)
  else none

/-- The value of a four-digit hexadecimal escape. -/
def hexQuad (a b c d : Char) : Option Nat :=
  match hexVal a, hexVal b, hexVal c, hexVal d with
  | some va, some vb, some vc, some vd =>
    some (((va * 16 + vb) * 16 + vc) * 16 + vd)
  | _, _, _, _ => none

/-- Split a leading run of decimal digits off the input. -/
def spanDigits : List Char → List Char × List Char
  | [] => ([], [])
  | c :: rest =>
    if isDigitChar c then
      let (ds, r) := spanDigits rest
      (c :: ds, r)
    else ([], c :: rest)

/-- The number denoted by a digit run. -/
def digitsToNat (ds : List Char) : Nat :=
  ds.foldl (fun acc c => acc * 10 + (c.toNat - 48)) 0

/-- Parse a natural number: a nonempty leading digit run. -/
def parseNatNum (cs : List Char) : Option (Nat × List Char) :=
  match spanDigits cs with
  | ([], _) => none
  | (ds, rest) => some (digitsToNat ds, rest)

/-- The single-character string escapes `JSON.parse` resolves. -/
def unescapeChar : Char → Option Char
  | '"' => some '"'
  | '\\' => some '\\'
  | '/' => some '/'
  | 'b' => some '\x08'
  | 'f' => some '\x0c'
  | 'n' => some '\n'
  | 'r' => some '\r'
  | 't' => some '\t'
  | _ => none

/-- Parse the rest of a string literal, after the opening quote. -/
def parseStringRest (acc : List Char) : List Char → Option (String × List Char)
  | [] => none
  | c :: rest =>
    if c = '"' then some (⟨acc.reverse⟩, rest)
    else if c = '\\' then
      match rest with
      | 'u' :: a :: b :: c2 :: d :: r =>
        match hexQuad a b c2 d with
        | some n => parseStringRest (Char.ofNat n :: acc) r
        | none => none
      | e :: r =>
        match unescapeChar e with
        | some ch => parseStringRest (ch :: acc) r
        | none => none
      | [] => none
    else parseStringRest (c :: acc) rest

mutual

/-- Parse one JSON value (fueled; the fuel only bounds recursion). -/
def parseJsonVal (fuel : Nat) (cs : List Char) : Option (JsVal × List Char) :=
  match fuel with
  | 0 => none
  | fuel + 1 =>
    match skipSpaces cs with
    | 'n' :: 'u' :: 'l' :: 'l' :: r => some (.jnull, r)
    | 't' :: 'r' :: 'u' :: 'e' :: r => some (.jbool true, r)
    | 'f' :: 'a' :: 'l' :: 's' :: 'e' :: r => some (.jbool false, r)
    | '"' :: r =>
      match parseStringRest [] r with
      | some (s, r2) => some (.jstr s, r2)
      | none => none
    | '[' :: r =>
      match skipSpaces r with
      | ']' :: r2 => some (.jarr [], r2)
      | r2 =>
        match parseJsonItems fuel r2 with
        | some (items, r3) => some (.jarr items, r3)
        | none => none
    | '{' :: r =>
      match skipSpaces r with
      | '}' :: r2 => some (.jobj [], r2)
      | r2 =>
        match parseJsonFields fuel r2 with
        | some (fields, r3) => some (.jobj fields, r3)
        | none => none
    | '-' :: r =>
      match parseNatNum r with
      | some (n, r2) => some (.jint (-(n : Int)), r2)
      | none => none
    | c :: r =>
      if isDigitChar c then
        match parseNatNum (c :: r) with
        | some (n, r2) => some (.jint (n : Int), r2)
        | none => none
      else none
    | [] => none

/-- Parse one-or-more comma-separated array elements up to `]`. -/
def parseJsonItems (fuel : Nat) (cs : List Char) :
    Option (List JsVal × List Char) :=
  match fuel with
  | 0 => none
  | fuel + 1 =>
    match parseJsonVal fuel cs with
    | none => none
    | some (v, r) =>
      match skipSpaces r with
      | ',' :: r2 =>
        match parseJsonItems fuel r2 with
        | some (items, r3) => some (v :: items, r3)
        | none => none
      | ']' :: r2 => some ([v], r2)
      | _ => none

/-- Parse one-or-more comma-separated `"key":value` members up to `}`. -/
def parseJsonFields (fuel : Nat) (cs : List Char) :
    Option (List (String × JsVal) × List Char) :=
  match fuel with
  | 0 => none
  | fuel + 1 =>
    match skipSpaces cs with
    | '"' :: r =>
      match parseStringRest [] r with
      | none => none
      | some (key, r1) =>
        match skipSpaces r1 with
        | ':' :: r2 =>
          match parseJsonVal fuel r2 with
          | none => none
          | some (v, r3) =>
            match skipSpaces r3 with
            | ',' :: r4 =>
              match parseJsonFields fuel r4 with
              | some (fields, r5) => some ((key, v) :: fields, r5)
              | none => none
            | '}' :: r4 => some ([(key, v)], r4)
            | _ => none
        | _ => none
    | _ => none

end

/-- The model of `JSON.parse`: parse one value and require only whitespace
after it. -/
def jsonParse (s : String) : Option JsVal :=
  match parseJsonVal (s.toList.length + 1) s.toList with
  | some (v, r) => if (skipSpaces r).isEmpty then some v else none
  | none => none

/-! # Theorems

## Sanitization -/

theorem sanitize_deep_id (v : JsVal) (d : Nat) (h : 10 < d) :
    sanitizeInitialProps v d = v := by
  rw [sanitizeInitialProps.eq_def, if_pos h]

mutual

theorem sanitize_secretFree (v : JsVal) (d k : Nat) (h : d + k ≤ 10) :
    secretFreeTo k (sanitizeInitialProps v d) = true := by
  have hd : ¬ 10 < d := by omega
  match v with
  | .jnull => rw [sanitizeInitialProps.eq_def, if_neg hd]; rfl
  | .jbool _ => rw [sanitizeInitialProps.eq_def, if_neg hd]; rfl
  | .jint _ => rw [sanitizeInitialProps.eq_def, if_neg hd]; rfl
  | .jstr _ => rw [sanitizeInitialProps.eq_def, if_neg hd]; rfl
  | .jobj fields =>
    rw [sanitizeInitialProps.eq_def, if_neg hd]
    exact sanitizeFields_secretFree fields d k h
  | .jarr items =>
    rw [sanitizeInitialProps.eq_def, if_neg hd]
    exact sanitizeItems_secretFree items d k h

theorem sanitizeFields_secretFree (fields : List (String × JsVal)) (d k : Nat)
    (h : d + k ≤ 10) :
    fieldsSecretFreeTo k (sanitizeFields fields d) = true := by
  match fields with
  | [] => rfl
  | (key, value) :: rest =>
    rw [sanitizeFields]
    by_cases h1 : key = "password"
    · rw [if_pos (by simp [h1])]
      exact sanitizeFields_secretFree rest d k h
    · by_cases h2 : key = "passwordHash"
      · rw [if_pos (by simp [h2])]
        exact sanitizeFields_secretFree rest d k h
      · rw [if_neg (by simp [h1, h2])]
        have hrest := sanitizeFields_secretFree rest d k h
        match k with
        | 0 => simp [fieldsSecretFreeTo, h1, h2, hrest]
        | k + 1 =>
          have hv := sanitize_secretFree value (d + 1) k (by omega)
          simp [fieldsSecretFreeTo, h1, h2, hrest, hv]

theorem sanitizeItems_secretFree (items : List JsVal) (d k : Nat)
    (h : d + k ≤ 10) :
    itemsSecretFreeTo k (sanitizeItems items d) = true := by
  match items with
  | [] => rfl
  | value :: rest =>
    rw [sanitizeItems]
    have hrest := sanitizeItems_secretFree rest d k h
    match k with
    | 0 => simp [itemsSecretFreeTo, hrest]
    | k + 1 =>
      have hv := sanitize_secretFree value (d + 1) k (by omega)
      simp [itemsSecretFreeTo, hrest, hv]

end

theorem sanitizeFields_lookup (fields : List (String × JsVal)) (d : Nat)
    (key : String) (h1 : key ≠ "password") (h2 : key ≠ "passwordHash") :
    lookupField (sanitizeFields fields d) key
      = (lookupField fields key).map (fun v => sanitizeInitialProps v (d + 1)) := by
  induction fields with
  | nil => rfl
  | cons kv rest ih =>
    obtain ⟨k, v⟩ := kv
    rw [sanitizeFields]
    by_cases hk1 : k = "password"
    · have hne : ¬ k = key := fun e => h1 (e ▸ hk1)
      rw [if_pos (by simp [hk1])]
      rw [ih, lookupField, if_neg hne]
    · by_cases hk2 : k = "passwordHash"
      · have hne : ¬ k = key := fun e => h2 (e ▸ hk2)
        rw [if_pos (by simp [hk2])]
        rw [ih, lookupField, if_neg hne]
      · rw [if_neg (by simp [hk1, hk2])]
        by_cases hk : k = key
        · rw [lookupField, if_pos hk, lookupField, if_pos hk]; rfl
        · rw [lookupField, if_neg hk, lookupField, if_neg hk, ih]

/-- C4: `sanitizeInitialProps` strips every own field named exactly
`"password"` or `"passwordHash"` from every object within depth 10, returns
values at depth beyond the limit unmodified, preserves every other field
(its value sanitized one level deeper), and sanitizes the spec's example to
the expected record.  The embedding is pure, so the input value itself is
never modified (the source clones each traversed object or array). -/
theorem sanitizeInitialProps_spec :
    (∀ v : JsVal, secretFreeTo 10 (sanitizeInitialProps v 0) = true)
    ∧ (∀ (v : JsVal) (d : Nat), 10 < d → sanitizeInitialProps v d = v)
    ∧ (∀ (fields : List (String × JsVal)) (d : Nat) (key : String),
        key ≠ "password" → key ≠ "passwordHash" →
        lookupField (sanitizeFields fields d) key
          = (lookupField fields key).map (fun v => sanitizeInitialProps v (d + 1)))
    ∧ sanitizeInitialProps
        (.jobj [("password", .jstr "x"),
                ("nested", .jobj [("passwordHash", .jstr "y"), ("keep", .jint 1)])]) 0
      = .jobj [("nested", .jobj [("keep", .jint 1)])] := by
  refine ⟨fun v => sanitize_secretFree v 0 10 (by omega),
    fun v d h => sanitize_deep_id v d h,
    fun fields d key h1 h2 => sanitizeFields_lookup fields d key h1 h2,
    ?_⟩
  rfl

/-- Witness for C4 at concrete inputs: the depth-limit clause at depth 11, the
preservation clause at key `"keep"`, the secret-free clause and the example. -/
theorem sanitizeInitialProps_spec_witness :
    secretFreeTo 10 (sanitizeInitialProps (.jobj [("password", .jstr "s")]) 0) = true
    ∧ (10 < 11 ∧ sanitizeInitialProps (.jobj [("password", .jstr "s")]) 11
        = .jobj [("password", .jstr "s")])
    ∧ ("keep" ≠ "password" ∧ "keep" ≠ "passwordHash"
        ∧ lookupField (sanitizeFields [("keep", .jint 1)] 0) "keep"
          = (lookupField [("keep", .jint 1)] "keep").map
              (fun v => sanitizeInitialProps v 1)) :=
  ⟨sanitizeInitialProps_spec.1 (.jobj [("password", .jstr "s")]),
   ⟨by omega, sanitizeInitialProps_spec.2.1 (.jobj [("password", .jstr "s")]) 11 (by omega)⟩,
   ⟨by decide, by decide,
    sanitizeInitialProps_spec.2.2.1 [("keep", .jint 1)] 0 "keep" (by decide) (by decide)⟩⟩

/-! ## Page-name validation -/

theorem containsSeq_head_mem {a : Char} {t : List Char} :
    ∀ cs, containsSeq (a :: t) cs = true → a ∈ cs := by
  intro cs
  induction cs with
  | nil => intro h; exact absurd h (by simp [containsSeq, List.isEmpty])
  | cons c rest ih =>
    intro h
    rw [containsSeq] at h
    rcases Bool.or_eq_true_iff.mp h with hpre | hrec
    · have hac : a = c ∧ List.isPrefixOf t rest = true := by
        simpa [List.isPrefixOf] using hpre
      simp [hac.1]
    · exact List.mem_cons_of_mem c (ih hrec)

theorem validatePageName_iff (name : String) :
    validatePageName name = true ↔
      (name.toList ≠ [] ∧ ∀ c ∈ name.toList, isSafeNameChar c = true) := by
  constructor
  · intro h
    rw [validatePageName] at h
    split at h
    · exact absurd h (by simp)
    · rw [safeNameTest] at h
      simp only [Bool.and_eq_true, Bool.not_eq_true', List.isEmpty_eq_false,
        List.all_eq_true] at h
      exact ⟨h.1, h.2⟩
  · rintro ⟨hne, hall⟩
    have hdot : ∀ cs, cs ⊆ name.toList → containsSeq ['.', '.'] cs = false := by
      intro cs hsub
      by_contra hc
      have hmem := containsSeq_head_mem cs (by
        cases hcs : containsSeq ['.', '.'] cs
        · exact absurd hcs hc
        · rfl)
      have := hall '.' (hsub hmem)
      exact absurd this (by decide)
    have hslash : containsSeq ['/'] name.toList = false := by
      by_contra hc
      have hmem := containsSeq_head_mem name.toList (by
        cases hcs : containsSeq ['/'] name.toList
        · exact absurd hcs hc
        · rfl)
      have := hall '/' hmem
      exact absurd this (by decide)
    have hback : containsSeq ['\\'] name.toList = false := by
      by_contra hc
      have hmem := containsSeq_head_mem name.toList (by
        cases hcs : containsSeq ['\\'] name.toList
        · exact absurd hcs hc
        · rfl)
      have := hall '\\' hmem
      exact absurd this (by decide)
    rw [validatePageName, if_neg (by
      rw [hdot name.toList (fun _ hx => hx), hslash, hback]
      simp)]
    rw [safeNameTest]
    simp only [Bool.and_eq_true, Bool.not_eq_true', List.isEmpty_eq_false,
      List.all_eq_true]
    exact ⟨hne, hall⟩

theorem validatePageName_separators (name : String)
    (h : (containsSeq ['.', '.'] name.toList || containsSeq ['/'] name.toList
        || containsSeq ['\\'] name.toList) = true) :
    validatePageName name = false := by
  rw [validatePageName, if_pos h]

theorem intercept_load_needs_validName (env : InterceptEnv) (res : ResState)
    (handler : Option JsException)
    (h : LoadEvent.issue .page ∈ (intercept env res handler).trace) :
    ∃ name, env.pageName = some name ∧ validatePageName name = true := by
  cases hroot : env.pageRoot with
  | none => rw [intercept.eq_def, hroot] at h; exact absurd h (by simp)
  | some root =>
    cases hname : env.pageName with
    | none => rw [intercept.eq_def, hroot, hname] at h; exact absurd h (by simp)
    | some name =>
      rw [intercept.eq_def, hroot, hname] at h
      by_cases hv : validatePageName name
      · exact ⟨name, rfl, hv⟩
      · simp only [if_pos (by simp [hv] : (!validatePageName name) = true)] at h
        exact absurd h (by simp)

theorem intercept_invalidName_throws (env : InterceptEnv) (res : ResState)
    (handler : Option JsException) (root name : String)
    (hroot : env.pageRoot = some root) (hname : env.pageName = some name)
    (hv : validatePageName name = false) :
    intercept env res handler
      = ⟨.threw (.nistError ("Invalid page name: " ++ name
          ++ ". Only alphanumeric characters, hyphens, and underscores are allowed.")),
        res, []⟩ := by
  rw [intercept.eq_def, hroot, hname]
  simp only [if_pos (by simp [hv] : (!validatePageName name) = true)]

/-- C5: the pipeline proceeds to a module load only for page names accepted by
the safety pattern `^[a-zA-Z0-9_-]+$`; any name containing `".."`, `"/"` or
`"\"` fails validation; and an invalid name makes `intercept` throw the
invalid-input `NistError` with an empty load trace (no filesystem access, no
loader invocation). -/
theorem validatePageName_gate :
    (∀ name : String, validatePageName name = true ↔
      (name.toList ≠ [] ∧ ∀ c ∈ name.toList, isSafeNameChar c = true))
    ∧ (∀ name : String,
        (containsSeq ['.', '.'] name.toList || containsSeq ['/'] name.toList
          || containsSeq ['\\'] name.toList) = true →
        validatePageName name = false)
    ∧ (∀ (env : InterceptEnv) (res : ResState) (handler : Option JsException),
        LoadEvent.issue .page ∈ (intercept env res handler).trace →
        ∃ name, env.pageName = some name ∧ validatePageName name = true)
    ∧ (∀ (env : InterceptEnv) (res : ResState) (handler : Option JsException)
        (root name : String),
        env.pageRoot = some root → env.pageName = some name →
        validatePageName name = false →
        intercept env res handler
          = ⟨.threw (.nistError ("Invalid page name: " ++ name
              ++ ". Only alphanumeric characters, hyphens, and underscores are allowed.")),
            res, []⟩) :=
  ⟨validatePageName_iff, validatePageName_separators,
   intercept_load_needs_validName, intercept_invalidName_throws⟩

/-- Witness for C5 at concrete inputs: `"home"` passes the pattern,
`"../etc"` is rejected, a concrete run that issues the page load has a valid
name, and a concrete invalid-name run throws with an empty trace. -/
theorem validatePageName_gate_witness :
    validatePageName "home" = true
    ∧ ((containsSeq ['.', '.'] "../etc".toList || containsSeq ['/'] "../etc".toList
        || containsSeq ['\\'] "../etc".toList) = true
      ∧ validatePageName "../etc" = false)
    ∧ (∃ name,
        (⟨some "/app", some "home", true, true, false, [], [], none, none, [],
          none⟩ : InterceptEnv).pageName = some name
        ∧ validatePageName name = true)
    ∧ intercept
        ⟨some "/app", some "a/b", true, true, false, [], [], none, none, [], none⟩
        initialRes none
      = ⟨.threw (.nistError ("Invalid page name: " ++ "a/b"
          ++ ". Only alphanumeric characters, hyphens, and underscores are allowed.")),
        initialRes, []⟩ :=
  ⟨(validatePageName_gate.1 "home").mpr (by decide),
   ⟨by decide, validatePageName_gate.2.1 "../etc" (by decide)⟩,
   validatePageName_gate.2.2.1
     ⟨some "/app", some "home", true, true, false, [], [], none, none, [], none⟩
     initialRes none (by decide),
   validatePageName_gate.2.2.2
     ⟨some "/app", some "a/b", true, true, false, [], [], none, none, [], none⟩
     initialRes none "/app" "a/b" rfl rfl (by decide)⟩

/-! ## Metadata merge -/

theorem getKey_append (xs ys : MetaRecord) (k : String) :
    getKey (xs ++ ys) k = (getKey xs k).or (getKey ys k) := by
  induction xs with
  | nil => simp [getKey]
  | cons kv rest ih =>
    obtain ⟨k0, v0⟩ := kv
    by_cases hk : k0 = k
    · simp [getKey, hk]
    · simp [getKey, hk, ih]

theorem hasKey_false_getKey (r : MetaRecord) (k : String)
    (h : hasKey r k = false) : getKey r k = none := by
  induction r with
  | nil => rfl
  | cons kv rest ih =>
    rw [hasKey] at h
    simp only [List.any_cons, Bool.or_eq_false_iff] at h
    rw [getKey, if_neg (by simpa using h.1)]
    exact ih (by rw [hasKey]; exact h.2)

theorem hasKey_true_getKey (r : MetaRecord) (k : String)
    (h : hasKey r k = true) : ∃ v, getKey r k = some v := by
  induction r with
  | nil => exact absurd h (by simp [hasKey])
  | cons kv rest ih =>
    rw [hasKey] at h
    simp only [List.any_cons, Bool.or_eq_true] at h
    by_cases hk : kv.1 = k
    · exact ⟨kv.2, by rw [show kv = (kv.1, kv.2) from rfl, getKey, if_pos hk]⟩
    · rw [show kv = (kv.1, kv.2) from rfl, getKey, if_neg hk]
      apply ih
      rcases h with h | h
      · exact absurd (by simpa using h) hk
      · rw [hasKey]; exact h

theorem getKey_filter_out (a b : MetaRecord) (k : String) :
    getKey (a.filter (fun kv => !hasKey b kv.1)) k
      = if hasKey b k then none else getKey a k := by
  induction a with
  | nil => simp [getKey]
  | cons kv rest ih =>
    obtain ⟨k0, v0⟩ := kv
    by_cases hk : k0 = k
    · subst hk
      cases hb : hasKey b k0
      · simp [List.filter_cons, hb, getKey, ih]
      · simp [List.filter_cons, hb, ih]
    · cases hb : hasKey b k0
      · simp [List.filter_cons, hb, getKey, hk, ih]
      · simp [List.filter_cons, hb, getKey, hk, ih]

theorem getKey_spread (a b : MetaRecord) (k : String) :
    getKey (spreadRecord a b) k = (getKey b k).or (getKey a k) := by
  rw [spreadRecord, getKey_append, getKey_filter_out]
  cases hb : hasKey b k
  · rw [hasKey_false_getKey b k hb]
    simp
  · obtain ⟨v, hv⟩ := hasKey_true_getKey b k hb
    rw [hv]
    simp

/-- C6: the metadata merge is a shallow overlay in increasing priority — for
every key the result holds the value of the last layer defining that key (the
value itself, so a nested object is replaced as one unit), and a key is absent
from the result exactly when no layer defines it. -/
theorem mergeMetadata_spec :
    (∀ (root nested page override : MetaRecord) (k : String),
      getKey (mergeMetadata root nested page override) k
        = ((getKey override k).or ((getKey page k).or
            ((getKey nested k).or (getKey root k)))))
    ∧ (∀ (root nested page override : MetaRecord) (k : String),
      getKey (mergeMetadata root nested page override) k = none ↔
        (getKey root k = none ∧ getKey nested k = none ∧ getKey page k = none
          ∧ getKey override k = none)) := by
  have hchar : ∀ (root nested page override : MetaRecord) (k : String),
      getKey (mergeMetadata root nested page override) k
        = ((getKey override k).or ((getKey page k).or
            ((getKey nested k).or (getKey root k)))) := by
    intro root nested page override k
    rw [mergeMetadata, getKey_spread, getKey_spread, getKey_spread]
  refine ⟨hchar, fun root nested page override k => ?_⟩
  rw [hchar]
  cases getKey override k <;> cases getKey page k <;> cases getKey nested k
    <;> cases getKey root k <;> simp [Option.or]

/-! ## Module cache -/

theorem loadPageModule_fresh (isProd : Bool) (loader : Nat → LoadResult)
    (key : String) (now : Nat) (st : CacheState) (c : CachedModule)
    (hc : cacheGet st.entries key = some c)
    (hf : ttlFresh isProd now c.timestamp = true) :
    loadPageModule isProd loader key now st = (c, st) := by
  rw [loadPageModule.eq_def, hc]
  simp [hf]

theorem loadPageModule_expired (isProd : Bool) (loader : Nat → LoadResult)
    (key : String) (now : Nat) (st : CacheState) (c : CachedModule)
    (hc : cacheGet st.entries key = some c)
    (hf : ttlFresh isProd now c.timestamp = false) :
    loadPageModule isProd loader key now st
      = (⟨(loader st.loadCount).component, (loader st.loadCount).metadata,
            (loader st.loadCount).config, now⟩,
          ⟨cacheSet st.entries key
              ⟨(loader st.loadCount).component, (loader st.loadCount).metadata,
                (loader st.loadCount).config, now⟩,
            st.loadCount + 1⟩) := by
  rw [loadPageModule.eq_def, hc]
  simp [hf]

theorem cacheGet_cacheSet (entries : List (String × CachedModule))
    (key : String) (m : CachedModule) :
    cacheGet (cacheSet entries key m) key = some m := by
  rw [cacheSet, cacheGet, if_pos rfl]

/-- C8: the cache TTL is infinite in production mode and a fixed 10 s in
development mode; while an entry is within the TTL window, retrievals return
the identical stored entry without invoking the loader or changing the cache;
once the TTL has elapsed, a retrieval invokes the loader exactly once and
replaces the entry with a freshly stamped one. -/
theorem loadPageModule_ttl_spec :
    (∀ now ts : Nat, ttlFresh true now ts = true)
    ∧ (∀ now ts : Nat, ttlFresh false now ts = decide (now - ts < 10000))
    ∧ (∀ (isProd : Bool) (loader : Nat → LoadResult) (key : String)
        (t1 t2 : Nat) (st : CacheState) (c : CachedModule),
        cacheGet st.entries key = some c →
        ttlFresh isProd t1 c.timestamp = true →
        ttlFresh isProd t2 c.timestamp = true →
        loadPageModule isProd loader key t1 st = (c, st)
          ∧ loadPageModule isProd loader key t2
              (loadPageModule isProd loader key t1 st).2 = (c, st))
    ∧ (∀ (isProd : Bool) (loader : Nat → LoadResult) (key : String)
        (t : Nat) (st : CacheState) (c : CachedModule),
        cacheGet st.entries key = some c →
        ttlFresh isProd t c.timestamp = false →
        (loadPageModule isProd loader key t st).2.loadCount = st.loadCount + 1
          ∧ (loadPageModule isProd loader key t st).1
              = ⟨(loader st.loadCount).component, (loader st.loadCount).metadata,
                  (loader st.loadCount).config, t⟩
          ∧ cacheGet (loadPageModule isProd loader key t st).2.entries key
              = some (loadPageModule isProd loader key t st).1) := by
  refine ⟨fun now ts => rfl, fun now ts => rfl, ?_, ?_⟩
  · intro isProd loader key t1 t2 st c hc hf1 hf2
    have h1 := loadPageModule_fresh isProd loader key t1 st c hc hf1
    refine ⟨h1, ?_⟩
    rw [h1]
    exact loadPageModule_fresh isProd loader key t2 st c hc hf2
  · intro isProd loader key t st c hc hf
    rw [loadPageModule_expired isProd loader key t st c hc hf]
    exact ⟨rfl, rfl, cacheGet_cacheSet _ _ _⟩

/-- Witness for C8 at concrete inputs: a development-mode cache holding an
entry stamped at 100 is retrieved twice inside the window (at 105 and 9000)
with no reload, and retrieved at 20000 with exactly one reload. -/
theorem loadPageModule_ttl_spec_witness :
    (cacheGet [("k", (⟨7, [], [], 100⟩ : CachedModule))] "k" = some ⟨7, [], [], 100⟩
      ∧ ttlFresh false 105 100 = true ∧ ttlFresh false 9000 100 = true
      ∧ loadPageModule false (fun i => ⟨i, [], []⟩) "k" 105 ⟨[("k", ⟨7, [], [], 100⟩)], 0⟩
          = (⟨7, [], [], 100⟩, ⟨[("k", ⟨7, [], [], 100⟩)], 0⟩))
    ∧ (ttlFresh false 20000 100 = false
      ∧ (loadPageModule false (fun i => ⟨i, [], []⟩) "k" 20000
          ⟨[("k", ⟨7, [], [], 100⟩)], 0⟩).2.loadCount = 0 + 1) := by
  refine ⟨⟨rfl, by decide, by decide, ?_⟩, by decide, ?_⟩
  · exact (loadPageModule_ttl_spec.2.2.1 false (fun i => ⟨i, [], []⟩) "k" 105 9000
      ⟨[("k", ⟨7, [], [], 100⟩)], 0⟩ ⟨7, [], [], 100⟩ rfl (by decide) (by decide)).1
  · exact (loadPageModule_ttl_spec.2.2.2 false (fun i => ⟨i, [], []⟩) "k" 20000
      ⟨[("k", ⟨7, [], [], 100⟩)], 0⟩ ⟨7, [], [], 100⟩ rfl (by decide)).1

/-! ## Client hydration globals -/

/-- C7 counterexample: starting from a consistent first load of page
`"home"`, one successful client navigation whose markers extract props and
page `"about"` leaves the canonical frozen object and the legacy aliases
describing different payloads — the claim fails at this input. -/
theorem hydrationGlobals_counterexample :
    ¬ globalsAligned
      (fetchAndRenderPage (some (.jnull, "about"))
        (bootstrapPublish ⟨.jnull, ⟨.jnull, .jnull, "/"⟩, "home", 0⟩
          ⟨none, none, none, none, none, none⟩)) := by
  intro h
  have hpage := h.2.1
  simp only [fetchAndRenderPage, bootstrapPublish] at hpage
  exact absurd (Option.some.inj hpage) (by decide)

/-- C7 amended: on the first page load the bootstrap script publishes the
frozen hydration object and the legacy aliases identically, but a client-side
navigation overwrites only the props and page-name aliases — it never touches
the frozen object or the route aliases, so the two surfaces are not kept in
lockstep across navigations. -/
theorem hydrationGlobals_amended :
    (∀ (payload : HydrationPayload) (g : ClientGlobals),
      globalsAligned (bootstrapPublish payload g))
    ∧ (∀ (extracted : Option (JsVal × String)) (g : ClientGlobals),
      (fetchAndRenderPage extracted g).nist = g.nist
        ∧ (fetchAndRenderPage extracted g).routeParams = g.routeParams
        ∧ (fetchAndRenderPage extracted g).queryParams = g.queryParams
        ∧ (fetchAndRenderPage extracted g).pathname = g.pathname) := by
  constructor
  · intro payload g
    exact ⟨rfl, rfl, rfl, rfl, rfl⟩
  · intro extracted g
    cases extracted with
    | none => exact ⟨rfl, rfl, rfl, rfl⟩
    | some pr =>
      obtain ⟨props, page⟩ := pr
      exact ⟨rfl, rfl, rfl, rfl⟩

/-! ## Frame effect of missing route metadata -/

/-- C10: when the controller class lacks page-root metadata or the handler
lacks page-name metadata, `intercept` returns the handler's observable
unchanged: the response state is untouched (no headers, no status change) and
no load is issued. -/
theorem intercept_passThrough (env : InterceptEnv) (res : ResState)
    (handler : Option JsException)
    (h : env.pageRoot = none ∨ env.pageName = none) :
    intercept env res handler = ⟨.passThrough, res, []⟩ := by
  rcases h with h | h
  · rw [intercept.eq_def, h]
  · cases hroot : env.pageRoot with
    | none => rw [intercept.eq_def, hroot]
    | some r => rw [intercept.eq_def, hroot, h]

/-- Witness for C10 at a concrete environment with no page-root metadata. -/
theorem intercept_passThrough_witness :
    (⟨none, some "home", true, true, false, [], [], none, none, [], none⟩
        : InterceptEnv).pageRoot = none
    ∧ intercept
        ⟨none, some "home", true, true, false, [], [], none, none, [], none⟩
        initialRes none
      = ⟨.passThrough, initialRes, []⟩ :=
  ⟨rfl, intercept_passThrough _ _ _ (Or.inl rfl)⟩

/-! ## Redirect-signal handling -/

/-- C2 counterexample: a `RedirectException` raised during markup
construction is caught by the pipeline's catch-all and re-thrown as
`NistError "SSR rendering failed"` (it is not an `Error` instance, so even its
message is lost) — it does not reach the transport as a redirect. -/
theorem redirect_render_counterexample :
    (intercept ⟨some "/app", some "home", true, true, false, [], [], none, none, [],
        some (.redirectException "/login" 302)⟩ initialRes none).outcome
      = .threw (.nistError "SSR rendering failed")
    ∧ (intercept ⟨some "/app", some "home", true, true, false, [], [], none, none, [],
        some (.redirectException "/login" 302)⟩ initialRes none).outcome
      ≠ .threw (.redirectException "/login" 302) := by
  refine ⟨rfl, ?_⟩
  intro hcontra
  rw [show (intercept ⟨some "/app", some "home", true, true, false, [], [], none, none, [],
        some (.redirectException "/login" 302)⟩ initialRes none).outcome
      = .threw (.nistError "SSR rendering failed") from rfl] at hcontra
  injection hcontra with he
  exact absurd he (by decide)

/-- C2 amended: a redirect-signal exception raised before the handler's
result is processed (by a guard or the route handler itself, i.e. as an error
of the source observable) passes through the pipeline unchanged and the
transport's redirect filter responds with its status code and target; but a
redirect-signal raised during markup construction is caught by the pipeline's
catch-all and wrapped into the generic `NistError "SSR rendering failed"`. -/
theorem redirect_passthrough_amended :
    (∀ (env : InterceptEnv) (res : ResState) (root name url : String) (code : Nat),
      env.pageRoot = some root → env.pageName = some name →
      validatePageName name = true →
      (intercept env res (some (.redirectException url code))).outcome
        = .handlerError (.redirectException url code))
    ∧ (∀ (url : String) (code : Nat) (res : ResState),
      redirectFilterCatch url code res
        = ⟨code, res.headers ++ [("Location", url)], true⟩)
    ∧ (∀ (env : InterceptEnv) (res : ResState) (root name url : String) (code : Nat),
      env.pageRoot = some root → env.pageName = some name →
      validatePageName name = true →
      env.renderOutcome = some (.redirectException url code) →
      (intercept env res none).outcome
        = .threw (.nistError "SSR rendering failed")) := by
  refine ⟨?_, ?_, ?_⟩
  · intro env res root name url code hroot hname hv
    rw [intercept.eq_def, hroot, hname]
    simp [hv]
  · intro url code res
    rfl
  · intro env res root name url code hroot hname hv hrender
    rw [intercept.eq_def, hroot, hname]
    simp [hv, switchMapBody, hrender, instanceOfError]

/-- Witness for C2's amended claim at concrete inputs. -/
theorem redirect_passthrough_amended_witness :
    validatePageName "home" = true
    ∧ (intercept ⟨some "/app", some "home", true, true, false, [], [], none, none, [], none⟩
        initialRes (some (.redirectException "/go" 307))).outcome
      = .handlerError (.redirectException "/go" 307)
    ∧ redirectFilterCatch "/go" 307 initialRes
      = ⟨307, [("Location", "/go")], true⟩
    ∧ (intercept ⟨some "/app", some "home", true, true, false, [], [], none, none, [],
        some (.redirectException "/go" 307)⟩ initialRes none).outcome
      = .threw (.nistError "SSR rendering failed") :=
  ⟨by decide,
   redirect_passthrough_amended.1
     ⟨some "/app", some "home", true, true, false, [], [], none, none, [], none⟩
     initialRes "/app" "home" "/go" 307 rfl rfl (by decide),
   redirect_passthrough_amended.2.1 "/go" 307 initialRes,
   redirect_passthrough_amended.2.2
     ⟨some "/app", some "home", true, true, false, [], [], none, none, [],
       some (.redirectException "/go" 307)⟩
     initialRes "/app" "home" "/go" 307 rfl rfl (by decide) rfl⟩

/-! ## Not-found response -/

/-- C1: evaluating the pipeline at the failing input — page `"missing"` whose
artifact does not load, with no custom not-found page — shows the built-in
fallback is substituted and its merged metadata carries
`robots: "noindex, nofollow"`, but the response is sent with status 200: the
early `res.status(404)` is overwritten by `res.status(200).end(...)` at send
time, contradicting the claimed 404. -/
theorem notFound_response_eval :
    (intercept ⟨some "/app", some "missing", true, false, false, [], [], none, none, [],
        none⟩ initialRes none).res.status = 200
    ∧ (intercept ⟨some "/app", some "missing", true, false, false, [], [], none, none, [],
        none⟩ initialRes none).res.ended = true
    ∧ (intercept ⟨some "/app", some "missing", true, false, false, [], [], none, none, [],
        none⟩ initialRes none).outcome
      = .sent notFoundDefaultMetadata true
    ∧ getKey notFoundDefaultMetadata "robots" = some (some (.jstr "noindex, nofollow")) :=
  ⟨rfl, rfl, rfl, rfl⟩

/-! ## Load fan-out -/

/-- C9 counterexample: the load trace of a successful page request is not a
three-way fan-out — the page load settles before either layout load is
issued, so not every issue precedes every settle. -/
theorem loadTrace_fanout_counterexample :
    threeWayFanOut (intercept ⟨some "/app", some "home", true, true, false, [], [], none,
        none, [], none⟩ initialRes none).trace = false := by
  decide

/-- C9 amended: within one request the page-artifact load is awaited to
completion first; only then are the nested-layout and root-layout loads
issued, together, and joined at a single point (a two-way fan-out with one
join) before rendering. -/
theorem loadTrace_amended (env : InterceptEnv) (res : ResState)
    (root name : String)
    (hroot : env.pageRoot = some root) (hname : env.pageName = some name)
    (hv : validatePageName name = true) (hload : env.pageLoadable = true)
    (hpd : env.hasPagesDir = true) :
    (intercept env res none).trace
      = awaitLoad .page ++ promiseAllPair .nestedLayout .rootLayout
    ∧ (intercept env res none).trace
      = [.issue .page, .settle .page, .issue .nestedLayout, .issue .rootLayout,
         .settle .nestedLayout, .settle .rootLayout] := by
  have htr : (intercept env res none).trace
      = awaitLoad .page ++ promiseAllPair .nestedLayout .rootLayout := by
    rw [intercept.eq_def, hroot, hname]
    simp only [switchMapBody, hv, hload, hpd]
    cases env.renderOutcome <;> simp
  exact ⟨htr, by rw [htr]; rfl⟩

/-- Witness for C9's amended claim at a concrete environment. -/
theorem loadTrace_amended_witness :
    validatePageName "home" = true
    ∧ (intercept ⟨some "/app", some "home", true, true, false, [], [], none, none, [],
        none⟩ initialRes none).trace
      = [.issue .page, .settle .page, .issue .nestedLayout, .issue .rootLayout,
         .settle .nestedLayout, .settle .rootLayout] :=
  ⟨by decide,
   (loadTrace_amended
     ⟨some "/app", some "home", true, true, false, [], [], none, none, [], none⟩
     initialRes "/app" "home" rfl rfl (by decide) rfl rfl).2⟩

/-! ## Hydration codec: the script-escape pass -/

theorem escapeScriptChars_nil : escapeScriptChars [] = [] := rfl

theorem escapeScriptChars_cons (c : Char) (cs : List Char) :
    escapeScriptChars (c :: cs) = scriptEscapeChar c ++ escapeScriptChars cs := rfl

theorem escapeScriptChars_append (a b : List Char) :
    escapeScriptChars (a ++ b) = escapeScriptChars a ++ escapeScriptChars b :=
  List.flatMap_append a b scriptEscapeChar

theorem scriptEscapeChar_plain (c : Char) (h : isScriptSpecial c = false) :
    scriptEscapeChar c = [c] := by
  simp only [isScriptSpecial, Bool.or_eq_false_iff, decide_eq_false_iff_not] at h
  obtain ⟨⟨⟨⟨h1, h2⟩, h3⟩, h4⟩, h5⟩ := h
  rw [scriptEscapeChar, if_neg h1, if_neg h2, if_neg h3, if_neg h4, if_neg h5]

theorem escapeScriptChars_plain (cs : List Char)
    (h : ∀ c ∈ cs, isScriptSpecial c = false) : escapeScriptChars cs = cs := by
  induction cs with
  | nil => rfl
  | cons c rest ih =>
    rw [escapeScriptChars_cons, scriptEscapeChar_plain c (h c (by simp)),
      ih (fun x hx => h x (by simp [hx]))]
    rfl

theorem scriptEscapeChar_all_plain (c : Char) :
    ∀ x ∈ scriptEscapeChar c, isScriptSpecial x = false := by
  by_cases h1 : c = '<'
  · subst h1; decide
  · by_cases h2 : c = '>'
    · subst h2; decide
    · by_cases h3 : c = '/'
      · subst h3; decide
      · by_cases h4 : c = '\u2028'
        · subst h4; decide
        · by_cases h5 : c = '\u2029'
          · subst h5; decide
          · rw [scriptEscapeChar_plain c (by
              simp [isScriptSpecial, h1, h2, h3, h4, h5])]
            intro x hx
            rw [List.mem_singleton] at hx
            subst hx
            simp [isScriptSpecial, h1, h2, h3, h4, h5]

theorem escapeScriptChars_all_plain (cs : List Char) :
    ∀ x ∈ escapeScriptChars cs, isScriptSpecial x = false := by
  induction cs with
  | nil => intro x hx; exact absurd hx (by simp [escapeScriptChars_nil])
  | cons c rest ih =>
    intro x hx
    rw [escapeScriptChars_cons, List.mem_append] at hx
    rcases hx with hx | hx
    · exact scriptEscapeChar_all_plain c x hx
    · exact ih x hx

/-! ## Hydration codec: decimal digits -/

theorem digitCharFacts : ∀ k, k < 10 →
    (Char.ofNat (48 + k)).toNat = 48 + k
    ∧ isDigitChar (Char.ofNat (48 + k)) = true
    ∧ isScriptSpecial (Char.ofNat (48 + k)) = false
    ∧ isJsonWs (Char.ofNat (48 + k)) = false
    ∧ Char.ofNat (48 + k) ≠ 'n' ∧ Char.ofNat (48 + k) ≠ 't'
    ∧ Char.ofNat (48 + k) ≠ 'f' ∧ Char.ofNat (48 + k) ≠ '"'
    ∧ Char.ofNat (48 + k) ≠ '[' ∧ Char.ofNat (48 + k) ≠ '{'
    ∧ Char.ofNat (48 + k) ≠ '-' ∧ Char.ofNat (48 + k) ≠ ']'
    ∧ Char.ofNat (48 + k) ≠ '}' := by decide

theorem natToChars_acc (n : Nat) : ∀ acc : List Char,
    natToChars n acc = natToChars n [] ++ acc := by
  induction n using Nat.strong_induction_on with
  | _ n ih =>
    intro acc
    rw [natToChars.eq_def n acc, natToChars.eq_def n []]
    by_cases h : n < 10
    · simp [h]
    · rw [if_neg h, if_neg h, ih (n / 10) (by omega), ih (n / 10) (by omega)
        (Char.ofNat (48 + n % 10) :: [])]
      simp

theorem natToChars_unfold (n : Nat) :
    natToChars n []
      = (if n < 10 then [] else natToChars (n / 10) [])
        ++ [Char.ofNat (48 + n % 10)] := by
  rw [natToChars.eq_def]
  by_cases h : n < 10
  · rw [if_pos h, if_pos h, Nat.mod_eq_of_lt h]
    rfl
  · rw [if_neg h, if_neg h]
    exact natToChars_acc (n / 10) [Char.ofNat (48 + n % 10)]

theorem natToChars_ne_nil (n : Nat) : natToChars n [] ≠ [] := by
  rw [natToChars_unfold]
  simp

theorem natToChars_mem (n : Nat) :
    ∀ c ∈ natToChars n [], ∃ k, k < 10 ∧ c = Char.ofNat (48 + k) := by
  induction n using Nat.strong_induction_on with
  | _ n ih =>
    intro c hc
    rw [natToChars_unfold, List.mem_append] at hc
    rcases hc with hc | hc
    · by_cases h : n < 10
      · rw [if_pos h] at hc
        exact absurd hc (by simp)
      · rw [if_neg h] at hc
        exact ih (n / 10) (by omega) c hc
    · rw [List.mem_singleton] at hc
      exact ⟨n % 10, Nat.mod_lt _ (by omega), hc⟩

theorem natToChars_digits (n : Nat) :
    ∀ c ∈ natToChars n [], isDigitChar c = true := by
  intro c hc
  obtain ⟨k, hk, rfl⟩ := natToChars_mem n c hc
  exact (digitCharFacts k hk).2.1

theorem natToChars_head (n : Nat) :
    ∃ k t, k < 10 ∧ natToChars n [] = Char.ofNat (48 + k) :: t := by
  induction n using Nat.strong_induction_on with
  | _ n ih =>
    by_cases h : n < 10
    · exact ⟨n % 10, [], Nat.mod_lt _ (by omega), by
        rw [natToChars_unfold, if_pos h]; rfl⟩
    · obtain ⟨k, t, hk, ht⟩ := ih (n / 10) (by omega)
      exact ⟨k, t ++ [Char.ofNat (48 + n % 10)], hk, by
        rw [natToChars_unfold, if_neg h, ht]; rfl⟩

theorem digitsToNat_natToChars (n : Nat) :
    digitsToNat (natToChars n []) = n := by
  induction n using Nat.strong_induction_on with
  | _ n ih =>
    rw [natToChars_unfold, digitsToNat, List.foldl_append]
    by_cases h : n < 10
    · rw [if_pos h]
      simp only [List.foldl_nil, List.foldl_cons]
      rw [(digitCharFacts (n % 10) (Nat.mod_lt _ (by omega))).1]
      omega
    · rw [if_neg h]
      have := ih (n / 10) (by omega)
      rw [digitsToNat] at this
      simp only [List.foldl_cons, List.foldl_nil, this]
      rw [(digitCharFacts (n % 10) (Nat.mod_lt _ (by omega))).1]
      omega

theorem spanDigits_stop (rest : List Char) (h : notDigitStart rest = true) :
    spanDigits rest = ([], rest) := by
  cases rest with
  | nil => rfl
  | cons c t =>
    rw [notDigitStart] at h
    rw [spanDigits, if_neg (by simp at h; simp [h])]

theorem spanDigits_run (ds : List Char) (hds : ∀ c ∈ ds, isDigitChar c = true)
    (rest : List Char) (hrest : notDigitStart rest = true) :
    spanDigits (ds ++ rest) = (ds, rest) := by
  induction ds with
  | nil => simpa using spanDigits_stop rest hrest
  | cons c t ih =>
    have hc : isDigitChar c = true := hds c (by simp)
    have ht := ih (fun x hx => hds x (by simp [hx]))
    rw [List.cons_append, spanDigits, if_pos hc, ht]

theorem parseNatNum_natToChars (n : Nat) (rest : List Char)
    (h : notDigitStart rest = true) :
    parseNatNum (natToChars n [] ++ rest) = some (n, rest) := by
  rw [parseNatNum,
    spanDigits_run (natToChars n []) (natToChars_digits n) rest h]
  obtain ⟨k, t, hk, hht⟩ := natToChars_head n
  rw [hht]
  show some (digitsToNat (Char.ofNat (48 + k) :: t), rest) = some (n, rest)
  rw [← hht, digitsToNat_natToChars]

/-! ## Hydration codec: hexadecimal escapes and the string body -/

theorem hexDigitFacts : ∀ k, k < 16 →
    hexVal (hexDigit k) = some k
    ∧ isScriptSpecial (hexDigit k) = false := by decide

theorem parseStringRest_plainChar (c : Char) (acc rest : List Char)
    (h1 : c ≠ '"') (h2 : c ≠ '\\') :
    parseStringRest acc (c :: rest) = parseStringRest (c :: acc) rest := by
  rw [parseStringRest.eq_def]
  simp only [if_neg h1, if_neg h2]

theorem parseStringRest_hexEscape (x y : Nat) (hx : x < 16) (hy : y < 16)
    (acc rest : List Char) :
    parseStringRest acc ('\\' :: 'u' :: '0' :: '0' :: hexDigit x :: hexDigit y :: rest)
      = parseStringRest (Char.ofNat (x * 16 + y) :: acc) rest := by
  rw [parseStringRest.eq_def]
  have h0 : hexVal '0' = some 0 := rfl
  have h1 := (hexDigitFacts x hx).1
  have h2 := (hexDigitFacts y hy).1
  simp only [hexQuad, h0, h1, h2]
  have harith : ((0 * 16 + 0) * 16 + x) * 16 + y = x * 16 + y := by omega
  simp [harith]

theorem escapeStep (c : Char) (acc rest : List Char) :
    parseStringRest acc (escapeScriptChars (jsonEscapeChar c) ++ rest)
      = parseStringRest (c :: acc) rest := by
  by_cases h1 : c = '"'
  · subst h1; rfl
  · by_cases h2 : c = '\\'
    · subst h2; rfl
    · by_cases h3 : c = '\x08'
      · subst h3; rfl
      · by_cases h4 : c = '\x0c'
        · subst h4; rfl
        · by_cases h5 : c = '\n'
          · subst h5; rfl
          · by_cases h6 : c = '\r'
            · subst h6; rfl
            · by_cases h7 : c = '\t'
              · subst h7; rfl
              · by_cases h8 : c.toNat < 32
                · -- other C0 control characters: emitted as \u00XX
                  rw [jsonEscapeChar, if_neg h1, if_neg h2, if_neg h3, if_neg h4,
                    if_neg h5, if_neg h6, if_neg h7, if_pos h8]
                  have hd1 := hexDigitFacts (c.toNat / 16) (by omega)
                  have hd2 := hexDigitFacts (c.toNat % 16) (by omega)
                  rw [escapeScriptChars_plain _ (by
                    intro x hx
                    simp only [List.mem_cons, List.mem_singleton] at hx
                    rcases hx with rfl | rfl | rfl | rfl | hx | hx
                    · decide
                    · decide
                    · decide
                    · decide
                    · subst hx; exact hd1.2
                    · rcases hx with rfl | hx
                      · exact hd2.2
                      · exact absurd hx (by simp))]
                  rw [List.cons_append, List.cons_append, List.cons_append,
                    List.cons_append, List.cons_append, List.cons_append,
                    List.nil_append]
                  rw [parseStringRest_hexEscape (c.toNat / 16) (c.toNat % 16)
                    (by omega) (by omega)]
                  have harith : c.toNat / 16 * 16 + c.toNat % 16 = c.toNat := by
                    omega
                  rw [harith, Char.ofNat_toNat]
                · -- ordinary characters: stringify emits them raw; the script
                  -- escape pass rewrites only the five specials
                  rw [jsonEscapeChar, if_neg h1, if_neg h2, if_neg h3, if_neg h4,
                    if_neg h5, if_neg h6, if_neg h7, if_neg h8]
                  by_cases hs1 : c = '<'
                  · subst hs1; rfl
                  · by_cases hs2 : c = '>'
                    · subst hs2; rfl
                    · by_cases hs3 : c = '/'
                      · subst hs3; rfl
                      · by_cases hs4 : c = '\u2028'
                        · subst hs4; rfl
                        · by_cases hs5 : c = '\u2029'
                          · subst hs5; rfl
                          · rw [escapeScriptChars_cons, escapeScriptChars_nil,
                              scriptEscapeChar_plain c (by
                                simp [isScriptSpecial, hs1, hs2, hs3, hs4, hs5])]
                            rw [List.append_nil, List.cons_append, List.nil_append]
                            exact parseStringRest_plainChar c acc rest h1 h2

theorem stringBody_roundTrip (cs : List Char) : ∀ (acc rest : List Char),
    parseStringRest acc
        (escapeScriptChars (cs.flatMap jsonEscapeChar) ++ '"' :: rest)
      = some (⟨acc.reverse ++ cs⟩, rest) := by
  induction cs with
  | nil =>
    intro acc rest
    rw [List.flatMap_nil, escapeScriptChars_nil, List.nil_append,
      parseStringRest.eq_def]
    simp
  | cons c t ih =>
    intro acc rest
    rw [List.flatMap_cons, escapeScriptChars_append, List.append_assoc,
      escapeStep, ih]
    simp

theorem parseString_roundTrip (s : String) (rest : List Char) :
    parseStringRest []
        (escapeScriptChars (s.toList.flatMap jsonEscapeChar) ++ '"' :: rest)
      = some (s, rest) := by
  rw [stringBody_roundTrip]
  rfl

/-! ## Hydration codec: parser step equations and renderer shapes -/

theorem skipSpaces_comma (l : List Char) : skipSpaces (',' :: l) = ',' :: l := rfl

theorem skipSpaces_colon (l : List Char) : skipSpaces (':' :: l) = ':' :: l := rfl

theorem skipSpaces_rbrack (l : List Char) : skipSpaces (']' :: l) = ']' :: l := rfl

theorem skipSpaces_rbrace (l : List Char) : skipSpaces ('}' :: l) = '}' :: l := rfl

theorem skipSpaces_cons_not_ws (c : Char) (l : List Char)
    (h : isJsonWs c = false) : skipSpaces (c :: l) = c :: l := by
  rw [skipSpaces, if_neg (by simp [h])]

theorem parseVal_succ_quote (f : Nat) (r : List Char) :
    parseJsonVal (f + 1) ('"' :: r)
      = match parseStringRest [] r with
        | some (s, r2) => some (.jstr s, r2)
        | none => none := rfl

theorem parseVal_succ_minus (f : Nat) (r : List Char) :
    parseJsonVal (f + 1) ('-' :: r)
      = match parseNatNum r with
        | some (n, r2) => some (.jint (-(n : Int)), r2)
        | none => none := rfl

theorem parseVal_succ_lbrack (f : Nat) (r : List Char) :
    parseJsonVal (f + 1) ('[' :: r)
      = match skipSpaces r with
        | ']' :: r2 => some (.jarr [], r2)
        | r2 =>
          match parseJsonItems f r2 with
          | some (items, r3) => some (.jarr items, r3)
          | none => none := rfl

theorem parseVal_succ_lbrace (f : Nat) (r : List Char) :
    parseJsonVal (f + 1) ('{' :: r)
      = match skipSpaces r with
        | '}' :: r2 => some (.jobj [], r2)
        | r2 =>
          match parseJsonFields f r2 with
          | some (fields, r3) => some (.jobj fields, r3)
          | none => none := rfl

theorem parseItems_succ (f : Nat) (cs : List Char) :
    parseJsonItems (f + 1) cs
      = match parseJsonVal f cs with
        | none => none
        | some (v, r) =>
          match skipSpaces r with
          | ',' :: r2 =>
            match parseJsonItems f r2 with
            | some (items, r3) => some (v :: items, r3)
            | none => none
          | ']' :: r2 => some ([v], r2)
          | _ => none := rfl

theorem parseFields_succ_quote (f : Nat) (r : List Char) :
    parseJsonFields (f + 1) ('"' :: r)
      = match parseStringRest [] r with
        | none => none
        | some (key, r1) =>
          match skipSpaces r1 with
          | ':' :: r2 =>
            match parseJsonVal f r2 with
            | none => none
            | some (v, r3) =>
              match skipSpaces r3 with
              | ',' :: r4 =>
                match parseJsonFields f r4 with
                | some (fields, r5) => some ((key, v) :: fields, r5)
                | none => none
              | '}' :: r4 => some ([(key, v)], r4)
              | _ => none
          | _ => none := rfl

theorem parseVal_succ_other (f : Nat) (c : Char) (r : List Char)
    (hws : isJsonWs c = false) (hn : c ≠ 'n') (ht : c ≠ 't') (hfc : c ≠ 'f')
    (hq : c ≠ '"') (hbk : c ≠ '[') (hbc : c ≠ '{') (hm : c ≠ '-') :
    parseJsonVal (f + 1) (c :: r)
      = if isDigitChar c then
          match parseNatNum (c :: r) with
          | some (n, r2) => some (.jint (n : Int), r2)
          | none => none
        else none := by
  rw [parseJsonVal.eq_def]
  rw [skipSpaces_cons_not_ws c r hws]
  split
  all_goals simp_all

theorem escStringifyString (s : String) :
    escapeScriptChars (stringifyString s)
      = '"' :: (escapeScriptChars (s.toList.flatMap jsonEscapeChar) ++ ['"']) := by
  rw [stringifyString, escapeScriptChars_cons, escapeScriptChars_append]
  rfl

theorem escArr (items : List JsVal) :
    escapeScriptChars (jsonStringify (.jarr items))
      = '[' :: (escapeScriptChars (stringifyItems items) ++ [']']) := by
  rw [show jsonStringify (.jarr items) = '[' :: (stringifyItems items ++ [']'])
      from rfl,
    escapeScriptChars_cons, escapeScriptChars_append]
  rfl

theorem escObj (fields : List (String × JsVal)) :
    escapeScriptChars (jsonStringify (.jobj fields))
      = '{' :: (escapeScriptChars (stringifyFields fields) ++ ['}']) := by
  rw [show jsonStringify (.jobj fields) = '{' :: (stringifyFields fields ++ ['}'])
      from rfl,
    escapeScriptChars_cons, escapeScriptChars_append]
  rfl

theorem escItems_single (v : JsVal) :
    escapeScriptChars (stringifyItems [v])
      = escapeScriptChars (jsonStringify v) := rfl

theorem escItems_cons₂ (v w : JsVal) (ws : List JsVal) :
    escapeScriptChars (stringifyItems (v :: w :: ws))
      = escapeScriptChars (jsonStringify v)
        ++ ',' :: escapeScriptChars (stringifyItems (w :: ws)) := by
  rw [show stringifyItems (v :: w :: ws)
      = jsonStringify v ++ ',' :: stringifyItems (w :: ws) from rfl,
    escapeScriptChars_append, escapeScriptChars_cons]
  rfl

theorem escFields_single (k : String) (v : JsVal) :
    escapeScriptChars (stringifyFields [(k, v)])
      = escapeScriptChars (stringifyString k)
        ++ ':' :: escapeScriptChars (jsonStringify v) := by
  rw [show stringifyFields [(k, v)] = stringifyString k ++ ':' :: jsonStringify v
      from rfl,
    escapeScriptChars_append, escapeScriptChars_cons]
  rfl

theorem escFields_cons₂ (k : String) (v : JsVal) (k2 : String) (v2 : JsVal)
    (fs : List (String × JsVal)) :
    escapeScriptChars (stringifyFields ((k, v) :: (k2, v2) :: fs))
      = escapeScriptChars (stringifyString k)
        ++ ':' :: (escapeScriptChars (jsonStringify v)
          ++ ',' :: escapeScriptChars (stringifyFields ((k2, v2) :: fs))) := by
  rw [show stringifyFields ((k, v) :: (k2, v2) :: fs)
      = stringifyString k
        ++ ':' :: (jsonStringify v ++ ',' :: stringifyFields ((k2, v2) :: fs))
      from rfl,
    escapeScriptChars_append, escapeScriptChars_cons, escapeScriptChars_append,
    escapeScriptChars_cons]
  rfl

theorem natToChars_plain (n : Nat) :
    ∀ c ∈ natToChars n [], isScriptSpecial c = false := by
  intro c hc
  obtain ⟨k, hk, rfl⟩ := natToChars_mem n c hc
  exact (digitCharFacts k hk).2.2.1

theorem escInt_neg (i : Int) (hi : i < 0) :
    escapeScriptChars (jsonStringify (.jint i)) = '-' :: natToChars i.natAbs [] := by
  rw [show jsonStringify (.jint i) = intToChars i from rfl, intToChars, if_pos hi,
    show ['-'] ++ natToChars i.natAbs [] = '-' :: natToChars i.natAbs [] from rfl,
    escapeScriptChars_cons, scriptEscapeChar_plain '-' (by decide),
    escapeScriptChars_plain _ (natToChars_plain i.natAbs)]
  rfl

theorem escInt_nonneg (i : Int) (hi : ¬ i < 0) :
    escapeScriptChars (jsonStringify (.jint i)) = natToChars i.natAbs [] := by
  rw [show jsonStringify (.jint i) = intToChars i from rfl, intToChars, if_neg hi,
    List.nil_append]
  exact escapeScriptChars_plain _ (natToChars_plain i.natAbs)

theorem escStringify_head (v : JsVal) :
    ∃ c t, escapeScriptChars (jsonStringify v) = c :: t
      ∧ isJsonWs c = false ∧ c ≠ ']' ∧ c ≠ '}' := by
  cases v with
  | jnull => exact ⟨'n', ['u', 'l', 'l'], by decide, by decide, by decide, by decide⟩
  | jbool b =>
    cases b with
    | true => exact ⟨'t', ['r', 'u', 'e'], by decide, by decide, by decide, by decide⟩
    | false =>
      exact ⟨'f', ['a', 'l', 's', 'e'], by decide, by decide, by decide, by decide⟩
  | jint i =>
    by_cases hi : i < 0
    · exact ⟨'-', natToChars i.natAbs [], escInt_neg i hi, by decide, by decide,
        by decide⟩
    · obtain ⟨k, t, hk, hht⟩ := natToChars_head i.natAbs
      obtain ⟨-, -, -, hws, -, -, -, -, -, -, -, hrb, hrc⟩ := digitCharFacts k hk
      exact ⟨Char.ofNat (48 + k), t, by rw [escInt_nonneg i hi, hht], hws, hrb, hrc⟩
  | jstr s =>
    exact ⟨'"', escapeScriptChars (s.toList.flatMap jsonEscapeChar) ++ ['"'],
      escStringifyString s, by decide, by decide, by decide⟩
  | jarr items =>
    exact ⟨'[', escapeScriptChars (stringifyItems items) ++ [']'], escArr items,
      by decide, by decide, by decide⟩
  | jobj fields =>
    exact ⟨'{', escapeScriptChars (stringifyFields fields) ++ ['}'], escObj fields,
      by decide, by decide, by decide⟩

theorem escItems_head (v : JsVal) (vs : List JsVal) :
    ∃ c t, escapeScriptChars (stringifyItems (v :: vs)) = c :: t
      ∧ isJsonWs c = false ∧ c ≠ ']' ∧ c ≠ '}' := by
  obtain ⟨c, t, hct, hws, hbr, hbc⟩ := escStringify_head v
  cases vs with
  | nil => exact ⟨c, t, by rw [escItems_single, hct], hws, hbr, hbc⟩
  | cons w ws =>
    exact ⟨c, t ++ ',' :: escapeScriptChars (stringifyItems (w :: ws)), by
      rw [escItems_cons₂, hct]; rfl, hws, hbr, hbc⟩

theorem arrBranch (f : Nat) (c : Char) (t : List Char) (hne : c ≠ ']') :
    (match (c :: t : List Char) with
     | ']' :: r2 => some (JsVal.jarr [], r2)
     | r2 =>
       match parseJsonItems f r2 with
       | some (items, r3) => some (JsVal.jarr items, r3)
       | none => none)
      = match parseJsonItems f (c :: t) with
        | some (items, r3) => some (JsVal.jarr items, r3)
        | none => none := by
  split
  · rename_i heq
    rw [List.cons.injEq] at heq
    exact absurd heq.1 hne
  · rfl

theorem objBranch (f : Nat) (c : Char) (t : List Char) (hne : c ≠ '}') :
    (match (c :: t : List Char) with
     | '}' :: r2 => some (JsVal.jobj [], r2)
     | r2 =>
       match parseJsonFields f r2 with
       | some (fields, r3) => some (JsVal.jobj fields, r3)
       | none => none)
      = match parseJsonFields f (c :: t) with
        | some (fields, r3) => some (JsVal.jobj fields, r3)
        | none => none := by
  split
  · rename_i heq
    rw [List.cons.injEq] at heq
    exact absurd heq.1 hne
  · rfl

theorem escFields_head (k : String) (v : JsVal) (fs : List (String × JsVal)) :
    ∃ t, escapeScriptChars (stringifyFields ((k, v) :: fs)) = '"' :: t := by
  cases fs with
  | nil =>
    exact ⟨(escapeScriptChars (k.toList.flatMap jsonEscapeChar) ++ ['"'])
        ++ ':' :: escapeScriptChars (jsonStringify v),
      by rw [escFields_single, escStringifyString]; rfl⟩
  | cons kv2 fs2 =>
    obtain ⟨k2, v2⟩ := kv2
    exact ⟨(escapeScriptChars (k.toList.flatMap jsonEscapeChar) ++ ['"'])
        ++ ':' :: (escapeScriptChars (jsonStringify v)
          ++ ',' :: escapeScriptChars (stringifyFields ((k2, v2) :: fs2))),
      by rw [escFields_cons₂, escStringifyString]; rfl⟩

/-! ## Hydration codec: the round trip -/

mutual

theorem rtVal : ∀ (v : JsVal) (fuel : Nat) (rest : List Char),
    (escapeScriptChars (jsonStringify v)).length < fuel →
    notDigitStart rest = true →
    parseJsonVal fuel (escapeScriptChars (jsonStringify v) ++ rest)
      = some (v, rest)
  | .jnull, fuel, rest, hf, _ => by
    cases fuel with
    | zero => exact absurd hf (by omega)
    | succ f => rfl
  | .jbool true, fuel, rest, hf, _ => by
    cases fuel with
    | zero => exact absurd hf (by omega)
    | succ f => rfl
  | .jbool false, fuel, rest, hf, _ => by
    cases fuel with
    | zero => exact absurd hf (by omega)
    | succ f => rfl
  | .jint i, fuel, rest, hf, hrest => by
    cases fuel with
    | zero => exact absurd hf (by omega)
    | succ f =>
      by_cases hi : i < 0
      · rw [escInt_neg i hi, List.cons_append, parseVal_succ_minus,
          parseNatNum_natToChars i.natAbs rest hrest]
        show some (JsVal.jint (-(i.natAbs : Int)), rest) = some (.jint i, rest)
        have hval : -(i.natAbs : Int) = i := by omega
        rw [hval]
      · rw [escInt_nonneg i hi]
        obtain ⟨k, t, hk, hht⟩ := natToChars_head i.natAbs
        obtain ⟨-, hdig, -, hws, hn, ht', hfc, hq, hbk, hbc, hm, -, -⟩ :=
          digitCharFacts k hk
        rw [hht, List.cons_append,
          parseVal_succ_other f _ _ hws hn ht' hfc hq hbk hbc hm, if_pos hdig,
          ← List.cons_append, ← hht, parseNatNum_natToChars i.natAbs rest hrest]
        show some (JsVal.jint (i.natAbs : Int), rest) = some (.jint i, rest)
        have hval : (i.natAbs : Int) = i := by omega
        rw [hval]
  | .jstr s, fuel, rest, hf, _ => by
    cases fuel with
    | zero => exact absurd hf (by omega)
    | succ f =>
      have harg : escapeScriptChars (jsonStringify (.jstr s)) ++ rest
          = '"' :: (escapeScriptChars (s.toList.flatMap jsonEscapeChar)
              ++ ('"' :: rest)) := by
        rw [show jsonStringify (.jstr s) = stringifyString s from rfl,
          escStringifyString]
        simp [List.append_assoc]
      rw [harg, parseVal_succ_quote, parseString_roundTrip]
  | .jarr [], fuel, rest, hf, _ => by
    cases fuel with
    | zero => exact absurd hf (by omega)
    | succ f => rfl
  | .jarr (v :: vs), fuel, rest, hf, _ => by
    cases fuel with
    | zero => exact absurd hf (by omega)
    | succ f =>
      have harg : escapeScriptChars (jsonStringify (.jarr (v :: vs))) ++ rest
          = '[' :: (escapeScriptChars (stringifyItems (v :: vs))
              ++ (']' :: rest)) := by
        rw [escArr]
        simp [List.append_assoc]
      have hlen : (escapeScriptChars (stringifyItems (v :: vs))).length + 1 < f := by
        rw [escArr] at hf
        simp only [List.length_cons, List.length_append,
          List.length_singleton] at hf
        omega
      have hitems := rtItems v vs f rest hlen
      obtain ⟨c, t, hct, hws, hbr, -⟩ := escItems_head v vs
      rw [harg, parseVal_succ_lbrack, hct, List.cons_append,
        skipSpaces_cons_not_ws c _ hws, arrBranch f c _ hbr,
        ← List.cons_append, ← hct, hitems]
  | .jobj [], fuel, rest, hf, _ => by
    cases fuel with
    | zero => exact absurd hf (by omega)
    | succ f => rfl
  | .jobj ((k, v) :: fs), fuel, rest, hf, _ => by
    cases fuel with
    | zero => exact absurd hf (by omega)
    | succ f =>
      have harg : escapeScriptChars (jsonStringify (.jobj ((k, v) :: fs))) ++ rest
          = '{' :: (escapeScriptChars (stringifyFields ((k, v) :: fs))
              ++ ('}' :: rest)) := by
        rw [escObj]
        simp [List.append_assoc]
      have hlen : (escapeScriptChars (stringifyFields ((k, v) :: fs))).length + 1
          < f := by
        rw [escObj] at hf
        simp only [List.length_cons, List.length_append,
          List.length_singleton] at hf
        omega
      have hfields := rtFields k v fs f rest hlen
      obtain ⟨t, hct⟩ := escFields_head k v fs
      rw [harg, parseVal_succ_lbrace, hct, List.cons_append,
        skipSpaces_cons_not_ws '"' _ (by decide), objBranch f '"' _ (by decide),
        ← List.cons_append, ← hct, hfields]
  termination_by v _ _ _ _ => sizeOf v

theorem rtItems : ∀ (v : JsVal) (vs : List JsVal) (fuel : Nat) (rest : List Char),
    (escapeScriptChars (stringifyItems (v :: vs))).length + 1 < fuel →
    parseJsonItems fuel
        (escapeScriptChars (stringifyItems (v :: vs)) ++ ']' :: rest)
      = some (v :: vs, rest)
  | v, [], fuel, rest, hf => by
    cases fuel with
    | zero => exact absurd hf (by omega)
    | succ f =>
      rw [escItems_single] at hf ⊢
      have hfe : (escapeScriptChars (jsonStringify v)).length < f := by omega
      rw [parseItems_succ, rtVal v f (']' :: rest) hfe rfl]
      rfl
  | v, w :: ws, fuel, rest, hf => by
    cases fuel with
    | zero => exact absurd hf (by omega)
    | succ f =>
      rw [escItems_cons₂] at hf ⊢
      simp only [List.length_append, List.length_cons] at hf
      have hfe : (escapeScriptChars (jsonStringify v)).length < f := by omega
      have hftail :
          (escapeScriptChars (stringifyItems (w :: ws))).length + 1 < f := by
        omega
      have hrec := rtItems w ws f rest hftail
      rw [List.append_assoc, List.cons_append, parseItems_succ,
        rtVal v f (',' :: (escapeScriptChars (stringifyItems (w :: ws))
          ++ ']' :: rest)) hfe rfl]
      simp only [skipSpaces_comma, hrec]
  termination_by v vs _ _ _ => sizeOf v + sizeOf vs

theorem rtFields : ∀ (k : String) (v : JsVal) (fs : List (String × JsVal))
    (fuel : Nat) (rest : List Char),
    (escapeScriptChars (stringifyFields ((k, v) :: fs))).length + 1 < fuel →
    parseJsonFields fuel
        (escapeScriptChars (stringifyFields ((k, v) :: fs)) ++ '}' :: rest)
      = some ((k, v) :: fs, rest)
  | k, v, [], fuel, rest, hf => by
    cases fuel with
    | zero => exact absurd hf (by omega)
    | succ f =>
      rw [escFields_single, escStringifyString] at hf ⊢
      simp only [List.length_append, List.length_cons,
        List.length_singleton] at hf
      have hfe : (escapeScriptChars (jsonStringify v)).length < f := by omega
      have hv := rtVal v f ('}' :: rest) hfe rfl
      have harg : (('"' :: (escapeScriptChars (k.toList.flatMap jsonEscapeChar)
              ++ ['"'])) ++ ':' :: escapeScriptChars (jsonStringify v))
            ++ '}' :: rest
          = '"' :: (escapeScriptChars (k.toList.flatMap jsonEscapeChar)
              ++ ('"' :: (':' :: (escapeScriptChars (jsonStringify v)
                ++ '}' :: rest)))) := by
        simp [List.append_assoc]
      rw [harg, parseFields_succ_quote, parseString_roundTrip]
      simp only [skipSpaces_colon, hv, skipSpaces_rbrace]
  | k, v, (k2, v2) :: fs, fuel, rest, hf => by
    cases fuel with
    | zero => exact absurd hf (by omega)
    | succ f =>
      rw [escFields_cons₂, escStringifyString] at hf ⊢
      simp only [List.length_append, List.length_cons,
        List.length_singleton] at hf
      have hfe : (escapeScriptChars (jsonStringify v)).length < f := by omega
      have hftail :
          (escapeScriptChars (stringifyFields ((k2, v2) :: fs))).length + 1
            < f := by omega
      have hv := rtVal v f
        (',' :: (escapeScriptChars (stringifyFields ((k2, v2) :: fs))
          ++ '}' :: rest)) hfe rfl
      have hrec := rtFields k2 v2 fs f rest hftail
      have harg : (('"' :: (escapeScriptChars (k.toList.flatMap jsonEscapeChar)
              ++ ['"'])) ++ ':' :: (escapeScriptChars (jsonStringify v)
                ++ ',' :: escapeScriptChars (stringifyFields ((k2, v2) :: fs))))
            ++ '}' :: rest
          = '"' :: (escapeScriptChars (k.toList.flatMap jsonEscapeChar)
              ++ ('"' :: (':' :: (escapeScriptChars (jsonStringify v)
                ++ ',' :: (escapeScriptChars (stringifyFields ((k2, v2) :: fs))
                  ++ '}' :: rest))))) := by
        simp [List.append_assoc]
      rw [harg, parseFields_succ_quote, parseString_roundTrip]
      simp only [skipSpaces_colon, hv, skipSpaces_comma, hrec]
  termination_by _ v fs _ _ _ => sizeOf v + sizeOf fs

end

theorem parse_serialize (v : JsVal) : jsonParse (serializeJavaScript v) = some v := by
  have hrt := rtVal v ((escapeScriptChars (jsonStringify v)).length + 1) []
    (by omega) rfl
  rw [List.append_nil] at hrt
  rw [jsonParse,
    show (serializeJavaScript v).toList = escapeScriptChars (jsonStringify v)
      from rfl,
    hrt]
  rfl

/-- C3: `serializeJavaScript` rewrites every occurrence of `<`, `>`, `/`,
U+2028, U+2029 in the JSON serialization to its `\uXXXX` escape (by
definition, `serializeJavaScript` is the JSON serialization with
`scriptEscapeChar` applied to every character), so its output contains none of
those five characters; and JSON-parsing the encoded string reproduces the
original value exactly, for every JSON-representable payload value — including
strings containing `<script>`, `</script>` or U+2028. -/
theorem serializeJavaScript_roundTrip : ∀ v : JsVal,
    (serializeJavaScript v).toList.all (fun c => !isScriptSpecial c) = true
    ∧ jsonParse (serializeJavaScript v) = some v := by
  intro v
  constructor
  · rw [List.all_eq_true]
    intro c hc
    have h := escapeScriptChars_all_plain (jsonStringify v) c hc
    simp [h]
  · exact parse_serialize v

end NistStack
